import Mathlib

/-!
Verification of the kingdom/tile model of `src/model.rs` (a Kingdomino board
engine). The Rust source is shallowly embedded: Rust `i8` coordinates become
`Int` together with an explicit validity range and wrapping arithmetic
(release-build overflow semantics), `HashMap<(i8, i8), PlacementIndex>` becomes
an association list with last-insert-wins lookup, and the `&mut self` placement
operation described by the design document becomes explicit state passing.
-/

/-- Closed set of terrain kinds, from `enum TileType` in the source. -/
inductive TileType where
  | Forest
  | Wheat
  | Water
  | Grassland
  | Swamp
  | Mountain
deriving DecidableEq

/-- Either the castle or one half of a domino, from `enum AnyTileType`. -/
inductive AnyTileType where
  | Castle
  | Domino (t : TileType)
deriving DecidableEq

/-- One half of a domino, from `struct DominoSide`. The Rust `crown_count` field
is a `u8`; the catalog only holds values 0 to 3, so `Nat` embeds it exactly. -/
structure DominoSide where
  tile_type : TileType
  crown_count : Nat
deriving DecidableEq

/-- Ordered pair of the two halves of a tile, from `struct Domino(DominoSide, DominoSide)`.
`fst` embeds the Rust field `.0` and `snd` the field `.1`. -/
structure Domino where
  fst : DominoSide
  snd : DominoSide
deriving DecidableEq

/-- Swap of the two halves, from `Domino::flip`. Returns a new value, the input
pair is untouched. -/
def Domino.flip (d : Domino) : Domino := ⟨d.snd, d.fst⟩

/-- Smart constructor for catalog entries, from the `const fn domino` helper. -/
def domino (tile1 : TileType) (crown1 : Nat) (tile2 : TileType) (crown2 : Nat) : Domino :=
  ⟨⟨tile1, crown1⟩, ⟨tile2, crown2⟩⟩

/-- The fixed domino catalog, transcribed entry by entry from `ALL_TILES:
[Domino; 48]` in the source. -/
def ALL_TILES : List Domino := [
  domino TileType.Wheat 0 TileType.Wheat 0,
  domino TileType.Wheat 0 TileType.Wheat 0,
  domino TileType.Forest 0 TileType.Forest 0,
  domino TileType.Forest 0 TileType.Forest 0,
  domino TileType.Forest 0 TileType.Forest 0,
  domino TileType.Forest 0 TileType.Forest 0,
  domino TileType.Water 0 TileType.Water 0,
  domino TileType.Water 0 TileType.Water 0,
  domino TileType.Water 0 TileType.Water 0,
  domino TileType.Grassland 0 TileType.Grassland 0,
  domino TileType.Grassland 0 TileType.Grassland 0,
  domino TileType.Swamp 0 TileType.Swamp 0,
  domino TileType.Wheat 0 TileType.Forest 0,
  domino TileType.Wheat 0 TileType.Water 0,
  domino TileType.Wheat 0 TileType.Grassland 0,
  domino TileType.Wheat 0 TileType.Swamp 0,
  domino TileType.Forest 0 TileType.Water 0,
  domino TileType.Forest 0 TileType.Grassland 0,
  domino TileType.Wheat 1 TileType.Forest 0,
  domino TileType.Wheat 1 TileType.Water 0,
  domino TileType.Wheat 1 TileType.Grassland 0,
  domino TileType.Wheat 1 TileType.Swamp 0,
  domino TileType.Wheat 1 TileType.Mountain 0,
  domino TileType.Forest 1 TileType.Wheat 0,
  domino TileType.Forest 1 TileType.Wheat 0,
  domino TileType.Forest 1 TileType.Wheat 0,
  domino TileType.Forest 1 TileType.Wheat 0,
  domino TileType.Forest 1 TileType.Water 0,
  domino TileType.Forest 1 TileType.Grassland 0,
  domino TileType.Water 1 TileType.Wheat 0,
  domino TileType.Water 1 TileType.Wheat 0,
  domino TileType.Water 1 TileType.Forest 0,
  domino TileType.Water 1 TileType.Forest 0,
  domino TileType.Water 1 TileType.Forest 0,
  domino TileType.Water 1 TileType.Forest 0,
  domino TileType.Wheat 0 TileType.Grassland 1,
  domino TileType.Water 0 TileType.Grassland 1,
  domino TileType.Wheat 0 TileType.Swamp 1,
  domino TileType.Grassland 0 TileType.Swamp 1,
  domino TileType.Mountain 1 TileType.Wheat 1,
  domino TileType.Wheat 0 TileType.Grassland 2,
  domino TileType.Water 0 TileType.Grassland 2,
  domino TileType.Wheat 0 TileType.Swamp 2,
  domino TileType.Grassland 0 TileType.Swamp 2,
  domino TileType.Mountain 2 TileType.Wheat 0,
  domino TileType.Swamp 0 TileType.Mountain 2,
  domino TileType.Swamp 0 TileType.Mountain 2,
  domino TileType.Wheat 0 TileType.Mountain 3]

/-- The castle or a placed domino, from `enum Tile`. -/
inductive Tile where
  | Castle
  | Domino (d : Domino)
deriving DecidableEq

/-- Rotation state of a placed domino, from `enum TileOrientation`: which cell
holds the first half and which the second. -/
inductive TileOrientation where
  | LeftRight
  | TopBottom
  | RightLeft
  | BottomTop
deriving DecidableEq

/-- Board coordinate, from `struct Position(i8, i8)`. The Rust components are
8-bit signed machine integers; the embedding carries mathematical integers
together with the representability range `Position.valid` below, and the
arithmetic of the source is embedded as wrapping 8-bit arithmetic. -/
structure Position where
  x : Int
  y : Int
deriving DecidableEq

/-- Lower bound of the Rust `i8` type. -/
def i8Min : Int := -128

/-- Upper bound of the Rust `i8` type. -/
def i8Max : Int := 127

/-- Representability of an integer as a Rust `i8`. -/
def inI8Range (n : Int) : Prop := i8Min ≤ n ∧ n ≤ i8Max

instance (n : Int) : Decidable (inI8Range n) := by
  unfold inI8Range i8Min i8Max; exact inferInstance

/-- Representability of a coordinate pair by a Rust `Position` value, i.e. both
components fit in `i8`. -/
def positionRepresentable (x y : Int) : Prop := inI8Range x ∧ inI8Range y

instance (x y : Int) : Decidable (positionRepresentable x y) := by
  unfold positionRepresentable; exact inferInstance

/-- A `Position` of the embedding that corresponds to an actual Rust value. -/
def Position.valid (p : Position) : Prop := positionRepresentable p.x p.y

instance (p : Position) : Decidable p.valid := by
  unfold Position.valid; exact inferInstance

/-- Reduction of an integer into the `i8` range by two's-complement wrapping. -/
def i8wrap (n : Int) : Int := (n + 128) % 256 - 128

/-- Addition of the source on `i8` coordinates (release-build semantics: the
mathematical sum reduced by wrapping). -/
def i8add (a b : Int) : Int := i8wrap (a + b)

/-- Subtraction of the source on `i8` coordinates (release-build semantics). -/
def i8sub (a b : Int) : Int := i8wrap (a - b)

/-- A proposed placement, from `struct TilePlacement`: a tile, the anchor cell
(the source comment calls it the top-left corner) and an orientation. -/
structure TilePlacement where
  tile : Tile
  position : Position
  orientation : TileOrientation
deriving DecidableEq

/-- Rejection reasons of the placement engine, from `enum TilePlacementError`. -/
inductive TilePlacementError where
  | OverlapsExistingTile
  | NoMatchingAdjacentTile
  | OutOfBounds
deriving DecidableEq

/-- Side length of the legal board extent, from `const KINGDOM_MAX_SIZE: u8 = 5`. -/
def KINGDOM_MAX_SIZE : Nat := 5

/-- One player's board, from `struct Kingdom`: the append-only placement log and
the sparse coordinate index. The Rust `HashMap<(i8, i8), PlacementIndex>` is
embedded as an association list whose lookup returns the most recent insertion,
and the `u8` of `PlacementIndex` as `Nat` (the log never comes near 256
entries, so no wrapping can occur there). -/
structure Kingdom where
  placements : List TilePlacement
  grid : List (Position × Nat)
deriving DecidableEq

/-- Lookup in the embedded grid index, modelling `HashMap::get`: the first
binding of the key wins, matching insert-at-front overwrite semantics. -/
def gridLookup (g : List (Position × Nat)) (pos : Position) : Option Nat :=
  match g with
  | [] => none
  | (q, i) :: rest => if q = pos then some i else gridLookup rest pos

/-- The initial castle placement built inside `Kingdom::new`. -/
def castlePlacement : TilePlacement :=
  ⟨Tile.Castle, ⟨0, 0⟩, TileOrientation.LeftRight⟩

/-- Construction, from `Kingdom::new`: the log holds the castle placement at the
origin and the grid maps the origin to index 0. -/
def Kingdom.new : Kingdom :=
  ⟨[castlePlacement], [(⟨0, 0⟩, 0)]⟩

/-- Cell-geometry resolver, from `Kingdom::get_positions_filled_by_placement`.
The Rust method takes `&self` and never reads it; the `Kingdom` argument is kept
so that independence from the board state is a provable statement. The branch
structure and the offset arithmetic follow the source line by line, with the
`i8` additions embedded as wrapping arithmetic. -/
def Kingdom.get_positions_filled_by_placement (_k : Kingdom)
    (placement : TilePlacement) : List Position :=
  match placement.tile with
  | Tile.Castle => [placement.position]
  | Tile.Domino _ =>
    let x := placement.position.x
    let y := placement.position.y
    match placement.orientation with
    | TileOrientation.LeftRight => [⟨x, y⟩, ⟨i8add x 1, y⟩]
    | TileOrientation.TopBottom => [⟨x, y⟩, ⟨x, i8sub y 1⟩]
    | TileOrientation.RightLeft => [⟨x, y⟩, ⟨i8sub x 1, y⟩]
    | TileOrientation.BottomTop => [⟨x, y⟩, ⟨x, i8add y 1⟩]

/-- Adjacency resolver, from `Kingdom::get_adjacent_positions`: the four
orthogonal neighbours in the fixed order right, up, left, down, with the same
embedded `i8` arithmetic as the source. -/
def Kingdom.get_adjacent_positions (_k : Kingdom) (position : Position) :
    List Position :=
  [⟨i8add position.x 1, position.y⟩,
   ⟨position.x, i8sub position.y 1⟩,
   ⟨i8sub position.x 1, position.y⟩,
   ⟨position.x, i8add position.y 1⟩]

/-- The offset map as the specification words it (§4.1): one cell right for
`LeftRight`, up (decreasing y) for `TopBottom`, left for `RightLeft`, down for
`BottomTop`, in the `i8` arithmetic of `Position`. Stated separately from the
resolver so the resolver can be compared against it. -/
def dominoOffset (p : Position) (o : TileOrientation) : Position :=
  match o with
  | TileOrientation.LeftRight => ⟨i8add p.x 1, p.y⟩
  | TileOrientation.TopBottom => ⟨p.x, i8sub p.y 1⟩
  | TileOrientation.RightLeft => ⟨i8sub p.x 1, p.y⟩
  | TileOrientation.BottomTop => ⟨p.x, i8add p.y 1⟩

/-- Position of each orientation's offset inside the list returned by
`get_adjacent_positions` (right, up, left, down). -/
def orientationIndexInAdjacent : TileOrientation → Nat
  | TileOrientation.LeftRight => 0
  | TileOrientation.TopBottom => 1
  | TileOrientation.RightLeft => 2
  | TileOrientation.BottomTop => 3

/-- Orthogonal adjacency of two cells: the coordinates differ by exactly one in
exactly one axis and agree on the other. -/
def isOrthAdjacent (a b : Position) : Prop :=
  ((a.x - b.x).natAbs = 1 ∧ a.y = b.y) ∨ (a.x = b.x ∧ (a.y - b.y).natAbs = 1)

instance (a b : Position) : Decidable (isOrthAdjacent a b) := by
  unfold isOrthAdjacent; exact inferInstance

/-- Whether the single `i8` offset addition performed by
`get_positions_filled_by_placement` for the given placement leaves the `i8`
range. An overflowing addition aborts the Rust program in builds with overflow
checks and silently wraps in release builds; a castle placement performs no
offset arithmetic at all. -/
def placementArithmeticOverflows (p : TilePlacement) : Bool :=
  match p.tile with
  | Tile.Castle => false
  | Tile.Domino _ =>
    match p.orientation with
    | TileOrientation.LeftRight => !(decide (inI8Range (p.position.x + 1)))
    | TileOrientation.TopBottom => !(decide (inI8Range (p.position.y - 1)))
    | TileOrientation.RightLeft => !(decide (inI8Range (p.position.x - 1)))
    | TileOrientation.BottomTop => !(decide (inI8Range (p.position.y + 1)))

/-- Modelled from the spec: half-width of the legal board extent of §4.3 — no
occupied coordinate's offset from the origin may exceed it in either axis; for
the 5-by-5 variant it is 2. The bounds check itself is not in the reviewed
source. -/
def KINGDOM_HALF_WIDTH : Int := ((KINGDOM_MAX_SIZE : Int) - 1) / 2

/-- Modelled from the spec: the OutOfBounds test of §4.3 for a single cell. -/
def inBoundsB (c : Position) : Bool :=
  decide (-KINGDOM_HALF_WIDTH ≤ c.x) && decide (c.x ≤ KINGDOM_HALF_WIDTH) &&
  decide (-KINGDOM_HALF_WIDTH ≤ c.y) && decide (c.y ≤ KINGDOM_HALF_WIDTH)

/-- Modelled from the spec: the terrain carried by each cell of a candidate
placement, in the resolver's cell order — the castle for a castle tile, the
first half's terrain on the anchor cell and the second half's on the offset
cell for a domino (§4.3, step 3). -/
def sideTypes (p : TilePlacement) : List AnyTileType :=
  match p.tile with
  | Tile.Castle => [AnyTileType.Castle]
  | Tile.Domino d => [AnyTileType.Domino d.fst.tile_type, AnyTileType.Domino d.snd.tile_type]

/-- Modelled from the spec: the occupied cells of a placement paired with the
terrain each cell carries. -/
def Kingdom.cellsWithTypes (k : Kingdom) (p : TilePlacement) :
    List (Position × AnyTileType) :=
  (k.get_positions_filled_by_placement p).zip (sideTypes p)

/-- Modelled from the spec: what occupies a board cell — the grid index is
followed to the committed placement and the half of that placement lying on the
cell gives the terrain (§4.3, step 3; read access of §6). -/
def Kingdom.typeAt (k : Kingdom) (c : Position) : Option AnyTileType :=
  match gridLookup k.grid c with
  | none => none
  | some idx =>
    match k.placements[idx]? with
    | none => none
    | some pl => (k.cellsWithTypes pl).lookup c

/-- Modelled from the spec: whether a board cell of the given terrain lets a
candidate cell of terrain `candType` attach to it — the castle always does, a
domino half only with equal terrain (§4.3, step 3). -/
def matchesCandidate (candType : AnyTileType) (boardType : AnyTileType) : Bool :=
  match boardType with
  | AnyTileType.Castle => true
  | AnyTileType.Domino tt =>
    match candType with
    | AnyTileType.Castle => false
    | AnyTileType.Domino ct => decide (tt = ct)

/-- Modelled from the spec: the NoMatchingAdjacentTile test of §4.3 — at least
one candidate cell has an orthogonal neighbour (via `get_adjacent_positions`)
occupied by the castle or by a half of matching terrain. -/
def Kingdom.hasMatchingAdjacent (k : Kingdom) (p : TilePlacement) : Bool :=
  (k.cellsWithTypes p).any (fun ct =>
    (k.get_adjacent_positions ct.1).any (fun n =>
      match k.typeAt n with
      | none => false
      | some bt => matchesCandidate ct.2 bt))

/-- Modelled from the spec: validation of §4.3 in the documented order bounds,
overlap, adjacency; `none` means the placement is legal. -/
def Kingdom.validate (k : Kingdom) (p : TilePlacement) : Option TilePlacementError :=
  let cells := k.get_positions_filled_by_placement p
  if (cells.all inBoundsB) = false then some TilePlacementError.OutOfBounds
  else if cells.any (fun c => (gridLookup k.grid c).isSome) then
    some TilePlacementError.OverlapsExistingTile
  else if k.hasMatchingAdjacent p then none
  else some TilePlacementError.NoMatchingAdjacentTile

/-- Modelled from the spec: the commit step of §4.3 — append the placement to
the log and insert one grid entry per occupied cell, each mapping to the new
log index. -/
def Kingdom.commit (k : Kingdom) (p : TilePlacement) : Kingdom :=
  { placements := k.placements ++ [p],
    grid := ((k.get_positions_filled_by_placement p).map
      (fun c => (c, k.placements.length))) ++ k.grid }

/-- Modelled from the spec: `Kingdom::attempt_place` of §4.3 and §6 — the
operation is described by the design document but absent from the reviewed
source (only its error enum `TilePlacementError` appears there). The Rust
signature `&mut self -> Result<(), TilePlacementError>` is embedded as state
passing: the first component is the returned error, if any, and the second the
board afterwards. -/
def Kingdom.attempt_place (k : Kingdom) (p : TilePlacement) :
    Option TilePlacementError × Kingdom :=
  match k.validate p with
  | some e => (some e, k)
  | none => (none, k.commit p)

/-- Kingdoms reachable through the public operations: construction followed by
any sequence of placement attempts, successful or not. -/
inductive Kingdom.Reachable : Kingdom → Prop where
  | base : Kingdom.Reachable Kingdom.new
  | step (k : Kingdom) (p : TilePlacement) (r : Option TilePlacementError)
      (k2 : Kingdom) : Kingdom.Reachable k → k.attempt_place p = (r, k2) →
      Kingdom.Reachable k2

/-- The state invariant of §3: every grid key resolves through its stored index
to a placement of the log whose occupied-cell set contains the key, and the log
starts with the castle placement at the origin. -/
def KingdomInv (k : Kingdom) : Prop :=
  (∀ pos idx, gridLookup k.grid pos = some idx →
    ∃ pl, k.placements[idx]? = some pl ∧
      pos ∈ k.get_positions_filled_by_placement pl) ∧
  k.placements.head? = some castlePlacement

theorem i8wrap_eq_of_range (n : Int) (h1 : -128 ≤ n) (h2 : n ≤ 127) :
    i8wrap n = n := by
  unfold i8wrap
  omega

theorem i8add_one_ne (x : Int) : i8add x 1 ≠ x := by
  unfold i8add i8wrap
  omega

theorem i8sub_one_ne (x : Int) : i8sub x 1 ≠ x := by
  unfold i8sub i8wrap
  omega

theorem resolver_state_independent (k1 k2 : Kingdom) (p : TilePlacement) :
    k1.get_positions_filled_by_placement p =
      k2.get_positions_filled_by_placement p := rfl

theorem gridLookup_append (g1 g2 : List (Position × Nat)) (pos : Position) :
    gridLookup (g1 ++ g2) pos =
      match gridLookup g1 pos with
      | some i => some i
      | none => gridLookup g2 pos := by
  induction g1 with
  | nil => rfl
  | cons hd tl ih =>
    obtain ⟨q, i⟩ := hd
    by_cases hq : q = pos
    · simp [gridLookup, hq]
    · simp only [List.cons_append, gridLookup, if_neg hq]
      exact ih

theorem gridLookup_map_const (cells : List Position) (n : Nat) (pos : Position)
    (idx : Nat) (h : gridLookup (cells.map fun c => (c, n)) pos = some idx) :
    idx = n ∧ pos ∈ cells := by
  induction cells with
  | nil => simp [gridLookup] at h
  | cons hd tl ih =>
    simp only [List.map_cons, gridLookup] at h
    by_cases hq : hd = pos
    · rw [if_pos hq] at h
      obtain rfl := Option.some.inj h
      exact ⟨rfl, hq ▸ List.mem_cons_self hd tl⟩
    · rw [if_neg hq] at h
      obtain ⟨h1, h2⟩ := ih h
      exact ⟨h1, List.mem_cons_of_mem hd h2⟩

theorem getElem?_append_of_some {α : Type} {l l2 : List α} {n : Nat} {a : α}
    (h : l[n]? = some a) : (l ++ l2)[n]? = some a := by
  induction l generalizing n with
  | nil => simp at h
  | cons hd tl ih =>
    cases n with
    | zero => simpa using h
    | succ m =>
      simp only [List.cons_append, List.getElem?_cons_succ] at h ⊢
      exact ih h

theorem getElem?_concat_length {α : Type} (l : List α) (a : α) :
    (l ++ [a])[l.length]? = some a := by
  induction l with
  | nil => rfl
  | cons hd tl ih =>
    simp only [List.cons_append, List.length_cons, List.getElem?_cons_succ]
    exact ih

theorem attempt_place_error_state {k k2 : Kingdom} {p : TilePlacement}
    {e : TilePlacementError} (h : k.attempt_place p = (some e, k2)) :
    k2 = k ∧ k.validate p = some e := by
  unfold Kingdom.attempt_place at h
  cases hv : k.validate p with
  | some e2 =>
    rw [hv] at h
    obtain ⟨h1, h2⟩ := Prod.mk.injEq .. ▸ h
    exact ⟨h2.symm, Option.some.inj h1 ▸ rfl⟩
  | none =>
    rw [hv] at h
    exact absurd (congrArg Prod.fst h) (by simp)

theorem attempt_place_success_state {k k2 : Kingdom} {p : TilePlacement}
    (h : k.attempt_place p = (none, k2)) : k2 = k.commit p := by
  unfold Kingdom.attempt_place at h
  cases hv : k.validate p with
  | some e2 =>
    rw [hv] at h
    exact absurd (congrArg Prod.fst h) (by simp)
  | none =>
    rw [hv] at h
    exact (congrArg Prod.snd h).symm

theorem kingdomInv_new : KingdomInv Kingdom.new := by
  constructor
  · intro pos idx h
    simp only [Kingdom.new, gridLookup] at h
    by_cases hq : (⟨0, 0⟩ : Position) = pos
    · rw [if_pos hq] at h
      obtain rfl := Option.some.inj h
      refine ⟨castlePlacement, rfl, ?_⟩
      simp [Kingdom.get_positions_filled_by_placement, castlePlacement, ← hq]
    · rw [if_neg hq] at h
      simp [gridLookup] at h
  · rfl

theorem kingdomInv_commit {k : Kingdom} (p : TilePlacement)
    (h : KingdomInv k) : KingdomInv (k.commit p) := by
  obtain ⟨hgrid, hhead⟩ := h
  constructor
  · intro pos idx hl
    simp only [Kingdom.commit] at hl
    rw [gridLookup_append] at hl
    cases hnew : gridLookup ((k.get_positions_filled_by_placement p).map
        fun c => (c, k.placements.length)) pos with
    | some i =>
      rw [hnew] at hl
      obtain rfl := Option.some.inj hl
      obtain ⟨rfl, hmem⟩ := gridLookup_map_const _ _ _ _ hnew
      refine ⟨p, ?_, ?_⟩
      · simp only [Kingdom.commit]
        exact getElem?_concat_length k.placements p
      · exact hmem
    | none =>
      rw [hnew] at hl
      obtain ⟨pl, hpl, hmem⟩ := hgrid pos idx hl
      refine ⟨pl, ?_, hmem⟩
      simp only [Kingdom.commit]
      exact getElem?_append_of_some hpl
  · simp only [Kingdom.commit]
    cases hps : k.placements with
    | nil => rw [hps] at hhead; simp at hhead
    | cons hd tl =>
      rw [hps] at hhead
      simpa using hhead

/-- C1: for every `TilePlacement` and every board state, the cell-geometry
resolver returns exactly the singleton anchor for a castle tile and, for a
domino tile, the anchor followed by its offset one cell right (`LeftRight`),
up i.e. decreasing y (`TopBottom`), left (`RightLeft`) or down i.e. increasing
y (`BottomTop`), in the `i8` arithmetic of `Position`; the board state argument
is universally quantified and absent from the right-hand side, so the result is
independent of any Kingdom state. -/
theorem c1_resolver_cells (k : Kingdom) (p : TilePlacement) :
    k.get_positions_filled_by_placement p =
      match p.tile with
      | Tile.Castle => [p.position]
      | Tile.Domino _ => [p.position, dominoOffset p.position p.orientation] := by
  obtain ⟨t, pos, o⟩ := p
  cases t <;> cases o <;> rfl

/-- C2: whenever `attempt_place` rejects a placement it returns one of the
three declared errors and leaves both the placement sequence and the grid index
untouched. -/
theorem c2_attempt_place_rejection_atomic (k : Kingdom) (p : TilePlacement)
    (e : TilePlacementError) (k2 : Kingdom)
    (h : k.attempt_place p = (some e, k2)) :
    (e = TilePlacementError.OverlapsExistingTile ∨
     e = TilePlacementError.NoMatchingAdjacentTile ∨
     e = TilePlacementError.OutOfBounds) ∧
    k2.placements = k.placements ∧ k2.grid = k.grid := by
  obtain ⟨hk, _⟩ := attempt_place_error_state h
  subst hk
  exact ⟨by cases e <;> simp, rfl, rfl⟩

/-- Witness for C2: the new kingdom rejects a domino anchored at (2,2) with
`NoMatchingAdjacentTile` and is left unchanged. -/
theorem c2_attempt_place_rejection_atomic_witness :
    (TilePlacementError.NoMatchingAdjacentTile =
       TilePlacementError.OverlapsExistingTile ∨
     TilePlacementError.NoMatchingAdjacentTile =
       TilePlacementError.NoMatchingAdjacentTile ∨
     TilePlacementError.NoMatchingAdjacentTile =
       TilePlacementError.OutOfBounds) ∧
    Kingdom.new.placements = Kingdom.new.placements ∧
    Kingdom.new.grid = Kingdom.new.grid :=
  c2_attempt_place_rejection_atomic Kingdom.new
    ⟨Tile.Domino (domino TileType.Wheat 0 TileType.Wheat 0), ⟨2, 2⟩,
      TileOrientation.RightLeft⟩
    TilePlacementError.NoMatchingAdjacentTile Kingdom.new (by decide)

/-- C3: every kingdom reachable through construction and placement attempts
satisfies the grid-to-log invariant, and its log starts with the castle
placement at the origin. -/
theorem c3_reachable_invariant (k : Kingdom) (h : k.Reachable) : KingdomInv k := by
  induction h with
  | base => exact kingdomInv_new
  | step k1 p r k2 _ heq ih =>
    cases r with
    | some e =>
      obtain ⟨hk, _⟩ := attempt_place_error_state heq
      subst hk
      exact ih
    | none =>
      rw [attempt_place_success_state heq]
      exact kingdomInv_commit p ih

/-- Witness for C3: the invariant holds of the freshly constructed kingdom. -/
theorem c3_reachable_invariant_witness : KingdomInv Kingdom.new :=
  c3_reachable_invariant Kingdom.new Kingdom.Reachable.base

/-- C4 counterexample: for a domino anchored at the origin with orientation
`RightLeft` the second occupied cell is (-1, 0), whose x coordinate is strictly
below the anchor's, so the anchor is not the top-left cell of the placement. -/
theorem c4_anchor_top_left_counterexample :
    Kingdom.new.get_positions_filled_by_placement
      ⟨Tile.Domino (domino TileType.Forest 0 TileType.Forest 0), ⟨0, 0⟩,
        TileOrientation.RightLeft⟩ = [⟨0, 0⟩, ⟨-1, 0⟩] ∧
    ¬ ((0 : Int) ≤ -1) := by decide

/-- C4 amended: the anchor is the cell of the domino's first half, not always
the top-left cell. For anchors away from the `i8` boundary it is coordinate-wise
at most the second cell exactly for orientations `LeftRight` and `BottomTop`;
for `TopBottom` and `RightLeft` the second cell is coordinate-wise at most the
anchor. -/
theorem c4_anchor_first_half_amended (k : Kingdom) (d : Domino) (pos : Position)
    (o : TileOrientation)
    (hx1 : -127 ≤ pos.x) (hx2 : pos.x ≤ 126)
    (hy1 : -127 ≤ pos.y) (hy2 : pos.y ≤ 126) :
    ∃ c2, k.get_positions_filled_by_placement ⟨Tile.Domino d, pos, o⟩ =
        [pos, c2] ∧
      ((o = TileOrientation.LeftRight ∨ o = TileOrientation.BottomTop) →
        pos.x ≤ c2.x ∧ pos.y ≤ c2.y) ∧
      ((o = TileOrientation.TopBottom ∨ o = TileOrientation.RightLeft) →
        c2.x ≤ pos.x ∧ c2.y ≤ pos.y) := by
  cases o with
  | LeftRight =>
    refine ⟨⟨i8add pos.x 1, pos.y⟩, rfl, fun _ => ?_, fun hor => ?_⟩
    · have hw : i8add pos.x 1 = pos.x + 1 := by
        unfold i8add
        exact i8wrap_eq_of_range _ (by omega) (by omega)
      exact ⟨by show pos.x ≤ i8add pos.x 1; omega, le_refl _⟩
    · rcases hor with hh | hh <;> exact absurd hh (by decide)
  | TopBottom =>
    refine ⟨⟨pos.x, i8sub pos.y 1⟩, rfl, fun hor => ?_, fun _ => ?_⟩
    · rcases hor with hh | hh <;> exact absurd hh (by decide)
    · have hw : i8sub pos.y 1 = pos.y - 1 := by
        unfold i8sub
        exact i8wrap_eq_of_range _ (by omega) (by omega)
      exact ⟨le_refl _, by show i8sub pos.y 1 ≤ pos.y; omega⟩
  | RightLeft =>
    refine ⟨⟨i8sub pos.x 1, pos.y⟩, rfl, fun hor => ?_, fun _ => ?_⟩
    · rcases hor with hh | hh <;> exact absurd hh (by decide)
    · have hw : i8sub pos.x 1 = pos.x - 1 := by
        unfold i8sub
        exact i8wrap_eq_of_range _ (by omega) (by omega)
      exact ⟨by show i8sub pos.x 1 ≤ pos.x; omega, le_refl _⟩
  | BottomTop =>
    refine ⟨⟨pos.x, i8add pos.y 1⟩, rfl, fun _ => ?_, fun hor => ?_⟩
    · have hw : i8add pos.y 1 = pos.y + 1 := by
        unfold i8add
        exact i8wrap_eq_of_range _ (by omega) (by omega)
      exact ⟨le_refl _, by show pos.y ≤ i8add pos.y 1; omega⟩
    · rcases hor with hh | hh <;> exact absurd hh (by decide)

/-- Witness for the amended C4 at a concrete left-right placement. -/
theorem c4_anchor_first_half_amended_witness :
    ∃ c2, Kingdom.new.get_positions_filled_by_placement
        ⟨Tile.Domino (domino TileType.Wheat 0 TileType.Wheat 0), ⟨1, 0⟩,
          TileOrientation.LeftRight⟩ = [⟨1, 0⟩, c2] ∧
      ((TileOrientation.LeftRight = TileOrientation.LeftRight ∨
        TileOrientation.LeftRight = TileOrientation.BottomTop) →
        (1 : Int) ≤ c2.x ∧ (0 : Int) ≤ c2.y) ∧
      ((TileOrientation.LeftRight = TileOrientation.TopBottom ∨
        TileOrientation.LeftRight = TileOrientation.RightLeft) →
        c2.x ≤ (1 : Int) ∧ c2.y ≤ (0 : Int)) :=
  c4_anchor_first_half_amended Kingdom.new
    (domino TileType.Wheat 0 TileType.Wheat 0) ⟨1, 0⟩ TileOrientation.LeftRight
    (by decide) (by decide) (by decide) (by decide)

/-- C5 counterexample: a domino anchored at (127, 0) with orientation
`LeftRight` wraps the `i8` offset addition, and its two cells (127, 0) and
(-128, 0) are not orthogonally adjacent. -/
theorem c5_adjacent_distinct_counterexample :
    Kingdom.new.get_positions_filled_by_placement
      ⟨Tile.Domino (domino TileType.Water 0 TileType.Water 0), ⟨127, 0⟩,
        TileOrientation.LeftRight⟩ = [⟨127, 0⟩, ⟨-128, 0⟩] ∧
    ¬ isOrthAdjacent ⟨127, 0⟩ ⟨-128, 0⟩ := by decide

/-- C5 amended: for every Domino placement whose single offset addition stays
inside the `i8` range, the two cells returned by the resolver are distinct and
orthogonally adjacent, and the returned pair is the same for every Kingdom
state; at a boundary anchor the addition wraps and the cells, though still
distinct, are a full board apart. -/
theorem c5_adjacent_distinct_amended (d : Domino) (pos : Position)
    (o : TileOrientation)
    (hov : placementArithmeticOverflows ⟨Tile.Domino d, pos, o⟩ = false) :
    ∃ c2, (∀ k2 : Kingdom,
        k2.get_positions_filled_by_placement ⟨Tile.Domino d, pos, o⟩ =
          [pos, c2]) ∧ c2 ≠ pos ∧ isOrthAdjacent pos c2 := by
  cases o with
  | LeftRight =>
    have hr : inI8Range (pos.x + 1) := by
      simpa [placementArithmeticOverflows] using hov
    have hw : i8add pos.x 1 = pos.x + 1 := by
      unfold i8add
      unfold inI8Range i8Min i8Max at hr
      exact i8wrap_eq_of_range _ (by omega) (by omega)
    refine ⟨⟨i8add pos.x 1, pos.y⟩, fun k2 => rfl, ?_, ?_⟩
    · intro hc
      exact i8add_one_ne pos.x (congrArg Position.x hc)
    · left
      refine ⟨?_, rfl⟩
      show (pos.x - i8add pos.x 1).natAbs = 1
      rw [hw]
      have hd : pos.x - (pos.x + 1) = -1 := by ring
      rw [hd]
      rfl
  | TopBottom =>
    have hr : inI8Range (pos.y - 1) := by
      simpa [placementArithmeticOverflows] using hov
    have hw : i8sub pos.y 1 = pos.y - 1 := by
      unfold i8sub
      unfold inI8Range i8Min i8Max at hr
      exact i8wrap_eq_of_range _ (by omega) (by omega)
    refine ⟨⟨pos.x, i8sub pos.y 1⟩, fun k2 => rfl, ?_, ?_⟩
    · intro hc
      exact i8sub_one_ne pos.y (congrArg Position.y hc)
    · right
      refine ⟨rfl, ?_⟩
      show (pos.y - i8sub pos.y 1).natAbs = 1
      rw [hw]
      have hd : pos.y - (pos.y - 1) = 1 := by ring
      rw [hd]
      rfl
  | RightLeft =>
    have hr : inI8Range (pos.x - 1) := by
      simpa [placementArithmeticOverflows] using hov
    have hw : i8sub pos.x 1 = pos.x - 1 := by
      unfold i8sub
      unfold inI8Range i8Min i8Max at hr
      exact i8wrap_eq_of_range _ (by omega) (by omega)
    refine ⟨⟨i8sub pos.x 1, pos.y⟩, fun k2 => rfl, ?_, ?_⟩
    · intro hc
      exact i8sub_one_ne pos.x (congrArg Position.x hc)
    · left
      refine ⟨?_, rfl⟩
      show (pos.x - i8sub pos.x 1).natAbs = 1
      rw [hw]
      have hd : pos.x - (pos.x - 1) = 1 := by ring
      rw [hd]
      rfl
  | BottomTop =>
    have hr : inI8Range (pos.y + 1) := by
      simpa [placementArithmeticOverflows] using hov
    have hw : i8add pos.y 1 = pos.y + 1 := by
      unfold i8add
      unfold inI8Range i8Min i8Max at hr
      exact i8wrap_eq_of_range _ (by omega) (by omega)
    refine ⟨⟨pos.x, i8add pos.y 1⟩, fun k2 => rfl, ?_, ?_⟩
    · intro hc
      exact i8add_one_ne pos.y (congrArg Position.y hc)
    · right
      refine ⟨rfl, ?_⟩
      show (pos.y - i8add pos.y 1).natAbs = 1
      rw [hw]
      have hd : pos.y - (pos.y + 1) = -1 := by ring
      rw [hd]
      rfl

/-- Witness for the amended C5 at a concrete interior placement. -/
theorem c5_adjacent_distinct_amended_witness :
    ∃ c2, (∀ k2 : Kingdom,
        k2.get_positions_filled_by_placement
          ⟨Tile.Domino (domino TileType.Water 1 TileType.Forest 0), ⟨1, 0⟩,
            TileOrientation.TopBottom⟩ = [⟨1, 0⟩, c2]) ∧
      c2 ≠ ⟨1, 0⟩ ∧ isOrthAdjacent ⟨1, 0⟩ c2 :=
  c5_adjacent_distinct_amended (domino TileType.Water 1 TileType.Forest 0)
    ⟨1, 0⟩ TileOrientation.TopBottom (by decide)

/-- C6 counterexample: (127, 0) is a representable anchor, yet a domino there
with orientation `LeftRight` makes the resolver's `i8` offset addition
overflow — aborting the program in builds with overflow checks, and wrapping to
the far-away cell (-128, 0) in release builds. -/
theorem c6_total_counterexample :
    Position.valid ⟨127, 0⟩ ∧
    placementArithmeticOverflows
      ⟨Tile.Domino (domino TileType.Swamp 0 TileType.Swamp 0), ⟨127, 0⟩,
        TileOrientation.LeftRight⟩ = true ∧
    Kingdom.new.get_positions_filled_by_placement
      ⟨Tile.Domino (domino TileType.Swamp 0 TileType.Swamp 0), ⟨127, 0⟩,
        TileOrientation.LeftRight⟩ = [⟨127, 0⟩, ⟨-128, 0⟩] := by decide

/-- Unfolding of validity at a constructed position, for arithmetic goals. -/
theorem valid_mk (a b : Int) :
    (⟨a, b⟩ : Position).valid ↔
      ((-128 ≤ a ∧ a ≤ 127) ∧ (-128 ≤ b ∧ b ≤ 127)) := Iff.rfl

/-- C6 amended: for every placement whose anchor lies strictly inside the `i8`
range, the resolver performs no overflowing arithmetic (so it cannot abort in
any build mode) and every returned cell is again a representable position; the
failure mode only exists at anchors on the `i8` boundary in the offset
direction. -/
theorem c6_total_amended (k : Kingdom) (p : TilePlacement)
    (hx1 : -127 ≤ p.position.x) (hx2 : p.position.x ≤ 126)
    (hy1 : -127 ≤ p.position.y) (hy2 : p.position.y ≤ 126) :
    placementArithmeticOverflows p = false ∧
    (k.get_positions_filled_by_placement p).all
      (fun c => decide c.valid) = true := by
  obtain ⟨t, pos, o⟩ := p
  simp only at hx1 hx2 hy1 hy2
  cases t with
  | Castle =>
    refine ⟨rfl, ?_⟩
    simp only [Kingdom.get_positions_filled_by_placement, List.all_cons,
      List.all_nil, Bool.and_true, decide_eq_true_eq, Position.valid,
      positionRepresentable, inI8Range, i8Min, i8Max]
    omega
  | Domino d =>
    cases o with
    | LeftRight =>
      have hw : i8add pos.x 1 = pos.x + 1 := by
        unfold i8add
        exact i8wrap_eq_of_range _ (by omega) (by omega)
      constructor
      · simp [placementArithmeticOverflows, inI8Range, i8Min, i8Max]
        omega
      · simp only [Kingdom.get_positions_filled_by_placement, List.all_cons,
          List.all_nil, Bool.and_true, Bool.and_eq_true, decide_eq_true_eq,
          valid_mk]
        omega
    | TopBottom =>
      have hw : i8sub pos.y 1 = pos.y - 1 := by
        unfold i8sub
        exact i8wrap_eq_of_range _ (by omega) (by omega)
      constructor
      · simp [placementArithmeticOverflows, inI8Range, i8Min, i8Max]
        omega
      · simp only [Kingdom.get_positions_filled_by_placement, List.all_cons,
          List.all_nil, Bool.and_true, Bool.and_eq_true, decide_eq_true_eq,
          valid_mk]
        omega
    | RightLeft =>
      have hw : i8sub pos.x 1 = pos.x - 1 := by
        unfold i8sub
        exact i8wrap_eq_of_range _ (by omega) (by omega)
      constructor
      · simp [placementArithmeticOverflows, inI8Range, i8Min, i8Max]
        omega
      · simp only [Kingdom.get_positions_filled_by_placement, List.all_cons,
          List.all_nil, Bool.and_true, Bool.and_eq_true, decide_eq_true_eq,
          valid_mk]
        omega
    | BottomTop =>
      have hw : i8add pos.y 1 = pos.y + 1 := by
        unfold i8add
        exact i8wrap_eq_of_range _ (by omega) (by omega)
      constructor
      · simp [placementArithmeticOverflows, inI8Range, i8Min, i8Max]
        omega
      · simp only [Kingdom.get_positions_filled_by_placement, List.all_cons,
          List.all_nil, Bool.and_true, Bool.and_eq_true, decide_eq_true_eq,
          valid_mk]
        omega

/-- Witness for the amended C6 at a concrete interior placement. -/
theorem c6_total_amended_witness :
    placementArithmeticOverflows
      ⟨Tile.Domino (domino TileType.Grassland 0 TileType.Swamp 1), ⟨0, -1⟩,
        TileOrientation.BottomTop⟩ = false ∧
    (Kingdom.new.get_positions_filled_by_placement
      ⟨Tile.Domino (domino TileType.Grassland 0 TileType.Swamp 1), ⟨0, -1⟩,
        TileOrientation.BottomTop⟩).all (fun c => decide c.valid) = true :=
  c6_total_amended Kingdom.new
    ⟨Tile.Domino (domino TileType.Grassland 0 TileType.Swamp 1), ⟨0, -1⟩,
      TileOrientation.BottomTop⟩
    (by decide) (by decide) (by decide) (by decide)

/-- C7 counterexample: there is no representable `Position` with coordinates
(128, 0) — the coordinate plane of the program is not unbounded, it is the
square of 8-bit signed pairs. -/
theorem c7_unbounded_counterexample :
    ¬ ∃ p : Position, p.valid ∧ p.x = 128 ∧ p.y = 0 := by
  rintro ⟨p, hv, hx, hy⟩
  unfold Position.valid positionRepresentable inI8Range i8Min i8Max at hv
  omega

/-- C7 amended: `Position` is a pair of 8-bit signed integer coordinates —
every pair inside [-128, 127] squared is representable, and storage imposes no
further constraint (in particular none tied to the 5-by-5 placement rule);
pairs outside that range are not representable. -/
theorem c7_unbounded_amended (x y : Int)
    (h1 : -128 ≤ x) (h2 : x ≤ 127) (h3 : -128 ≤ y) (h4 : y ≤ 127) :
    ∃ p : Position, p.x = x ∧ p.y = y ∧ p.valid := by
  refine ⟨⟨x, y⟩, rfl, rfl, ?_⟩
  unfold Position.valid positionRepresentable inI8Range i8Min i8Max
  exact ⟨⟨h1, h2⟩, h3, h4⟩

/-- Witness for the amended C7 at (100, 100), a coordinate far outside the
5-by-5 play area yet representable in storage. -/
theorem c7_unbounded_amended_witness :
    ∃ p : Position, p.x = 100 ∧ p.y = 100 ∧ p.valid :=
  c7_unbounded_amended 100 100 (by decide) (by decide) (by decide) (by decide)

/-- C8: flip is an involution returning a new value with the two sides swapped,
and it moves every domino whose sides differ. -/
theorem c8_flip_involution (d : Domino) :
    d.flip.flip = d ∧ d.flip = ⟨d.snd, d.fst⟩ ∧
    (d.fst ≠ d.snd → d.flip ≠ d) := by
  refine ⟨rfl, rfl, ?_⟩
  intro hne heq
  exact hne (congrArg Domino.fst heq).symm

/-- Witness for C8 at a domino with two different sides. -/
theorem c8_flip_involution_witness :
    ((domino TileType.Wheat 0 TileType.Forest 1).flip.flip =
        domino TileType.Wheat 0 TileType.Forest 1 ∧
      (domino TileType.Wheat 0 TileType.Forest 1).flip =
        ⟨(domino TileType.Wheat 0 TileType.Forest 1).snd,
         (domino TileType.Wheat 0 TileType.Forest 1).fst⟩ ∧
      ((domino TileType.Wheat 0 TileType.Forest 1).fst ≠
          (domino TileType.Wheat 0 TileType.Forest 1).snd →
        (domino TileType.Wheat 0 TileType.Forest 1).flip ≠
          domino TileType.Wheat 0 TileType.Forest 1)) ∧
    (domino TileType.Wheat 0 TileType.Forest 1).flip ≠
      domino TileType.Wheat 0 TileType.Forest 1 :=
  ⟨c8_flip_involution (domino TileType.Wheat 0 TileType.Forest 1),
   (c8_flip_involution (domino TileType.Wheat 0 TileType.Forest 1)).2.2
     (by decide)⟩

/-- C9: the domino catalog is a fixed constant table with exactly 48 entries
(immutability is inherent: `ALL_TILES` is a Rust `const`, and nothing in the
embedding or the source reassigns it). -/
theorem c9_all_tiles_count : ALL_TILES.length = 48 := rfl

/-- C10: for every anchor and orientation, the second cell the resolver
computes for a domino is exactly the element of `get_adjacent_positions` at the
orientation's index in the fixed order right, up, left, down — hence always a
member of the anchor's four-neighbour list. -/
theorem c10_second_cell_is_adjacent (k : Kingdom) (d : Domino) (pos : Position)
    (o : TileOrientation) :
    ∃ c, (k.get_positions_filled_by_placement
        ⟨Tile.Domino d, pos, o⟩)[1]? = some c ∧
      (k.get_adjacent_positions pos)[orientationIndexInAdjacent o]? = some c ∧
      c ∈ k.get_adjacent_positions pos := by
  cases o with
  | LeftRight =>
    exact ⟨⟨i8add pos.x 1, pos.y⟩, rfl, rfl,
      by simp [Kingdom.get_adjacent_positions]⟩
  | TopBottom =>
    exact ⟨⟨pos.x, i8sub pos.y 1⟩, rfl, rfl,
      by simp [Kingdom.get_adjacent_positions]⟩
  | RightLeft =>
    exact ⟨⟨i8sub pos.x 1, pos.y⟩, rfl, rfl,
      by simp [Kingdom.get_adjacent_positions]⟩
  | BottomTop =>
    exact ⟨⟨pos.x, i8add pos.y 1⟩, rfl, rfl,
      by simp [Kingdom.get_adjacent_positions]⟩
